import Mathlib

/-!
# redigomock: command registry, key generation and fuzzy matchers

A shallow embedding of `command.go` and `fuzzy_match.go`.

Modelling conventions.

* A Go `string` is modelled by the list of its runes (`GoString`); strings are
  taken to hold valid UTF-8 text, and the content of a `[]byte` is represented
  by the string it converts to.
* Go's standard library is not part of the repository.  `strings.TrimSpace`,
  the ASCII part of `strings.ToUpper` and integer formatting are written out;
  the Unicode case tables and the floating-point formatters are fields of
  `GoLib`, and theorems with a library parameter hold for every such library.
* The registry `commands map[string]*Cmd` is a function from keys to optional
  pointers, and a pointer is an index into a heap of `Cmd` cells.
-/

namespace Redigomock

/-- A Go string, as the sequence of its runes. -/
abbrev GoString := List Char

/-- The parts of the Go standard library that are taken as given: the Unicode
upper-case and lower-case mappings used for runes above ASCII, and the
shortest-representation formatters of `float64`
(`strconv.FormatFloat(x, 'g', -1, 64)`) and of `float32` (as printed by `fmt`),
on the bit patterns of the floats. -/
structure GoLib where
  upperTable : Char → Char
  lowerTable : Char → Char
  formatFloat64 : Nat → GoString
  formatFloat32 : Nat → GoString

/-- A library instance used to evaluate examples: it is the identity above
ASCII and renders every float as `NaN`.  Examples evaluated with it use ASCII
text and no floats, where every library agrees. -/
def GoLib.ascii : GoLib where
  upperTable := fun c => c
  lowerTable := fun c => c
  formatFloat64 := fun _ => "NaN".toList
  formatFloat32 := fun _ => "NaN".toList

/-- A library instance that carries the entries of the Unicode case tables for
the sharp s: U+00DF (small sharp s) has no upper-case mapping and is its own
upper case, U+1E9E (capital sharp s) is its own upper case and has U+00DF as
lower case.  Elsewhere above ASCII it is the identity. -/
def GoLib.sharpS : GoLib where
  upperTable := fun c => c
  lowerTable := fun c => if c.toNat = 0x1E9E then Char.ofNat 0xDF else c
  formatFloat64 := fun _ => "NaN".toList
  formatFloat32 := fun _ => "NaN".toList

/-! ## `unicode.IsSpace`, `strings.TrimSpace`, `strings.ToUpper` -/

/-- Go `unicode.IsSpace`: the Unicode White_Space property. -/
def isSpace (r : Char) : Bool :=
  let n := r.toNat
  n == 0x09 || n == 0x0A || n == 0x0B || n == 0x0C || n == 0x0D || n == 0x20 ||
  n == 0x85 || n == 0xA0 || n == 0x1680 || (0x2000 ≤ n && n ≤ 0x200A) ||
  n == 0x2028 || n == 0x2029 || n == 0x202F || n == 0x205F || n == 0x3000

/-- Go `strings.TrimLeftFunc(s, unicode.IsSpace)`. -/
def trimLeft (s : GoString) : GoString := s.dropWhile isSpace

/-- Go `strings.TrimRightFunc(s, unicode.IsSpace)`. -/
def trimRight (s : GoString) : GoString := (s.reverse.dropWhile isSpace).reverse

/-- Go `strings.TrimSpace`: leading white space is removed, then trailing. -/
def TrimSpace (s : GoString) : GoString := trimRight (trimLeft s)

/-- The ASCII rule of `unicode.ToUpper`: `'a'..'z'` move down by `'a' - 'A'`. -/
def asciiUpper (r : Char) : Char :=
  if 'a' ≤ r ∧ r ≤ 'z' then Char.ofNat (r.toNat - 32) else r

/-- Go `unicode.ToUpper`: the ASCII rule up to `unicode.MaxASCII`, the case
table above it. -/
def unicodeToUpper (L : GoLib) (r : Char) : Char :=
  if r.toNat ≤ 0x7F then asciiUpper r else L.upperTable r

/-- Go `strings.ToUpper`: every rune is mapped by `unicode.ToUpper`. -/
def ToUpper (L : GoLib) (s : GoString) : GoString := s.map (unicodeToUpper L)

/-! ## `strconv.Itoa`, `strconv.FormatInt(_, 10)` -/

/-- The digit character `'0' + d`. -/
def digitChar (d : Nat) : Char := Char.ofNat (48 + d)

/-- The digit loop of `strconv.formatBits` in base 10: while `u ≥ 10` the last
digit is written in front of the digits produced so far and `u` is divided by
10; the remaining `u < 10` is the leading digit.  `fuel` bounds the number of
iterations. -/
def formatBitsAux : Nat → Nat → GoString → GoString
  | 0, u, acc => digitChar u :: acc
  | fuel + 1, u, acc =>
    if 10 ≤ u then formatBitsAux fuel (u / 10) (digitChar (u % 10) :: acc)
    else digitChar u :: acc

/-- Decimal rendering of an unsigned value. -/
def formatBits (u : Nat) : GoString := formatBitsAux u u []

/-- Go `strconv.FormatInt(i, 10)`: a minus sign and the magnitude when
`i < 0`, the value itself otherwise. -/
def FormatInt (i : Int) : GoString :=
  if i < 0 then '-' :: formatBits i.natAbs else formatBits i.natAbs

/-- Go `strconv.Itoa(i)` is `FormatInt(int64(i), 10)`. -/
def Itoa (i : Int) : GoString := FormatInt i

/-! ## Dynamic values -/

/-- The value held by an `interface{}` argument, by dynamic type.  `nil` is the
nil interface.  Integers carry their mathematical value, floats their bit
pattern.  `anyInt`, `anyDouble` and `anyData` are the values of the three
matcher struct types of `fuzzy_match.go`.  `other` is a value of any further
dynamic type (a pointer, map, slice, user-defined type, ...), described by
whether the method set of its type has `Match(interface{}) bool` and by the
text `fmt.Fprint` writes for it. -/
inductive Value where
  | nil
  | str (s : GoString)
  | bytes (b : GoString)
  | int (n : Int)
  | int8 (n : Int)
  | int16 (n : Int)
  | int32 (n : Int)
  | int64 (n : Int)
  | uint (n : Nat)
  | uint8 (n : Nat)
  | uint16 (n : Nat)
  | uint32 (n : Nat)
  | uint64 (n : Nat)
  | float32 (bits : Nat)
  | float64 (bits : Nat)
  | bool (b : Bool)
  | anyInt
  | anyDouble
  | anyData
  | other (hasMatch : Bool) (printed : GoString)
  deriving DecidableEq, Repr

/-- Go `strings.Join(elems, " ")`. -/
def joinSpace : List GoString → GoString
  | [] => []
  | [x] => x
  | x :: y :: rest => x ++ ' ' :: joinSpace (y :: rest)

/-- Go `fmt.Fprint` of one operand (the `%v` rendering): text as it is, a byte
slice as the bracketed list of its bytes, integers in decimal, floats in
shortest form, booleans as words, a nil interface as `<nil>`, a struct without
fields as a pair of braces. -/
def Fprint (L : GoLib) : Value → GoString
  | .nil => "<nil>".toList
  | .str s => s
  | .bytes b =>
    '[' :: joinSpace ((b.flatMap String.utf8EncodeChar).map fun x => formatBits x.toNat) ++ [']']
  | .int n => FormatInt n
  | .int8 n => FormatInt n
  | .int16 n => FormatInt n
  | .int32 n => FormatInt n
  | .int64 n => FormatInt n
  | .uint n => formatBits n
  | .uint8 n => formatBits n
  | .uint16 n => formatBits n
  | .uint32 n => formatBits n
  | .uint64 n => formatBits n
  | .float32 x => L.formatFloat32 x
  | .float64 x => L.formatFloat64 x
  | .bool b => if b then "true".toList else "false".toList
  | .anyInt => "\x7b\x7d".toList
  | .anyDouble => "\x7b\x7d".toList
  | .anyData => "\x7b\x7d".toList
  | .other _ printed => printed

/-! ## `command.go` -/

/-- One iteration of the loop of `generateKey`: the type switch on `arg`
appends a space and the rendering of the argument to `key`. -/
def generateKey.step (L : GoLib) (key : GoString) (arg : Value) : GoString :=
  match arg with
  | .str arg => key ++ (" ".toList ++ TrimSpace arg)
  | .bytes arg => key ++ (" ".toList ++ TrimSpace arg)
  | .int arg => key ++ (" ".toList ++ Itoa arg)
  | .int64 arg => key ++ (" ".toList ++ FormatInt arg)
  | .float64 arg => key ++ (" ".toList ++ L.formatFloat64 arg)
  | .bool arg => if arg then key ++ " 1".toList else key ++ " 0".toList
  | .nil => key ++ " ".toList
  | arg => key ++ (" ".toList ++ TrimSpace (Fprint L arg))

/-- Go `generateKey`: the trimmed, upper-cased command name, extended by the
loop over `args`. -/
def generateKey (L : GoLib) (commandName : GoString) (args : List Value) : GoString :=
  args.foldl (generateKey.step L) (ToUpper L (TrimSpace commandName))

/-- The `interface{}` stored in `Cmd.Response`: a single dynamic value
(`Value.nil` for the nil interface) or a `[]interface{}` of values. -/
inductive Reply where
  | value (v : Value)
  | values (vs : List Value)
  deriving DecidableEq, Repr

/-- A Go `error` value, by its message. -/
abbrev GoError := GoString

/-- Go `Cmd`: the registered response and error; `none` is the nil error. -/
structure Cmd where
  Response : Reply
  Error : Option GoError
  deriving DecidableEq, Repr

/-- The zero value of `Cmd` declared by `var cmd Cmd`. -/
def Cmd.zero : Cmd := { Response := .value .nil, Error := none }

/-- Go `(*Cmd).Expect`, on the cell the handle points to. -/
def Cmd.Expect (c : Cmd) (response : Reply) : Cmd :=
  { c with Response := response, Error := none }

/-- The loop of `ExpectMap`: each iteration appends `[]byte(key)` and then
`[]byte(value)` to `values`.  `range` is the sequence of entries in the order
the `range` statement visits them. -/
def ExpectMap.loop (range : List (GoString × GoString)) : List Value :=
  range.foldl (fun values kv => (values ++ [Value.bytes kv.1]) ++ [Value.bytes kv.2]) []

/-- Go `(*Cmd).ExpectMap`, for the iteration order `range` of the map. -/
def Cmd.ExpectMap (c : Cmd) (range : List (GoString × GoString)) : Cmd :=
  { c with Response := .values (ExpectMap.loop range), Error := none }

/-- Go `(*Cmd).ExpectError`. -/
def Cmd.ExpectError (c : Cmd) (err : Option GoError) : Cmd :=
  { c with Response := .value .nil, Error := err }

/-- The program state: the heap of allocated `Cmd` cells, a `*Cmd` being an
index into it, and the package variables `commands` and `fuzzyCommands`. -/
structure State where
  heap : List Cmd
  commands : GoString → Option Nat
  fuzzyCommands : List Nat

/-- The state after `init`: `commands = make(map[string]*Cmd)`, and
`fuzzyCommands` is the nil slice. -/
def State.init : State := { heap := [], commands := fun _ => none, fuzzyCommands := [] }

/-- The expectation the registry holds at `key`, if any. -/
def State.entry (s : State) (key : GoString) : Option Cmd :=
  match s.commands key with
  | none => none
  | some p => s.heap[p]?

/-- Go `Command`: a fresh cell is allocated, stored at the generated key, and
its address returned. -/
def Command (L : GoLib) (commandName : GoString) (args : List Value) (s : State) :
    Nat × State :=
  let cmd := s.heap.length
  (cmd, { s with
          heap := s.heap ++ [Cmd.zero],
          commands := Function.update s.commands (generateKey L commandName args) (some cmd) })

/-- Go `GenericCommand`: as `Command`, with `generateKey(commandName, nil)`. -/
def GenericCommand (L : GoLib) (commandName : GoString) (s : State) : Nat × State :=
  let cmd := s.heap.length
  (cmd, { s with
          heap := s.heap ++ [Cmd.zero],
          commands := Function.update s.commands (generateKey L commandName []) (some cmd) })

/-- A method call through the handle `c`: the cell `c` points to is replaced
by the result of `f`. -/
def State.call (s : State) (c : Nat) (f : Cmd → Cmd) : State :=
  match s.heap[c]? with
  | none => s
  | some cell => { s with heap := s.heap.set c (f cell) }

/-- The call `c.Expect(response)` in state `s`. -/
def State.Expect (s : State) (c : Nat) (response : Reply) : State :=
  s.call c (fun cell => cell.Expect response)

/-- The call `c.ExpectMap(response)` in state `s`, with iteration order `range`. -/
def State.ExpectMap (s : State) (c : Nat) (range : List (GoString × GoString)) : State :=
  s.call c (fun cell => cell.ExpectMap range)

/-- The call `c.ExpectError(err)` in state `s`. -/
def State.ExpectError (s : State) (c : Nat) (err : Option GoError) : State :=
  s.call c (fun cell => cell.ExpectError err)

/-! ## `fuzzy_match.go` -/

/-- The dynamic types of the values of `Value`; `other` carries whether the
method set of the type has `Match(interface{}) bool`. -/
inductive GoType where
  | str | bytes | int | int8 | int16 | int32 | int64
  | uint | uint8 | uint16 | uint32 | uint64
  | float32 | float64 | bool
  | anyInt | anyDouble | anyData
  | other (hasMatch : Bool)
  deriving DecidableEq, Repr

/-- Go `reflect.TypeOf`: the dynamic type of the value, and the nil `Type`
(`none`) for a nil interface. -/
def TypeOf : Value → Option GoType
  | .nil => none
  | .str _ => some .str
  | .bytes _ => some .bytes
  | .int _ => some .int
  | .int8 _ => some .int8
  | .int16 _ => some .int16
  | .int32 _ => some .int32
  | .int64 _ => some .int64
  | .uint _ => some .uint
  | .uint8 _ => some .uint8
  | .uint16 _ => some .uint16
  | .uint32 _ => some .uint32
  | .uint64 _ => some .uint64
  | .float32 _ => some .float32
  | .float64 _ => some .float64
  | .bool _ => some .bool
  | .anyInt => some .anyInt
  | .anyDouble => some .anyDouble
  | .anyData => some .anyData
  | .other m _ => some (.other m)

/-- Whether the type implements `FuzzyMatcher`, that is, has the method
`Match(interface{}) bool`: the three matcher structs declare it, the
predeclared types and `[]byte` have no methods. -/
def GoType.ImplementsFuzzyMatcher : GoType → Bool
  | .anyInt => true
  | .anyDouble => true
  | .anyData => true
  | .other m => m
  | _ => false

/-- Go `NewAnyInt`. -/
def NewAnyInt : Value := .anyInt

/-- Go `NewAnyDouble`. -/
def NewAnyDouble : Value := .anyDouble

/-- Go `NewAnyData`. -/
def NewAnyData : Value := .anyData

/-- Go `anyInt.Match`: the type switch lists `int, int8, int16, int32, int64,
uint8, uint16, uint32, uint64`. -/
def anyInt.Match (input : Value) : Bool :=
  match input with
  | .int _ | .int8 _ | .int16 _ | .int32 _ | .int64 _
  | .uint8 _ | .uint16 _ | .uint32 _ | .uint64 _ => true
  | _ => false

/-- Go `anyDouble.Match`: the type switch lists `float32, float64`. -/
def anyDouble.Match (input : Value) : Bool :=
  match input with
  | .float32 _ | .float64 _ => true
  | _ => false

/-- Go `anyData.Match`. -/
def anyData.Match (_input : Value) : Bool := true

/-- The method `Match` of a matcher value, `none` when the value is not one of
the three matchers. -/
def Value.Match (matcher input : Value) : Option Bool :=
  match matcher with
  | .anyInt => some (anyInt.Match input)
  | .anyDouble => some (anyDouble.Match input)
  | .anyData => some (anyData.Match input)
  | _ => none

/-- Go `implementsFuzzy`: `reflect.TypeOf(input).Implements(...)`.  The method
call on the nil `Type` of a nil interface is a run-time panic, rendered as
`none`. -/
def implementsFuzzy (input : Value) : Option Bool :=
  match TypeOf input with
  | none => none
  | some t => some t.ImplementsFuzzyMatcher

/-! ## Notions of the specification -/

/-- Decimal rendering of a natural number as the specification means it: the
digits of the number in base 10, most significant first, and `0` for zero. -/
def decimalNat (n : Nat) : GoString :=
  if n = 0 then ['0'] else (Nat.digits 10 n).reverse.map digitChar

/-- Decimal rendering of an integer: a leading `-` when negative. -/
def decimal (i : Int) : GoString :=
  if i < 0 then '-' :: decimalNat i.natAbs else decimalNat i.natAbs

/-- The normalized token of an argument as the specification describes it:
strings and byte sequences trimmed, integers in decimal, floating-point values
in shortest form, booleans as `1`/`0`, a null argument as the empty token, any
other type by its default string representation, trimmed. -/
def normalizedToken (L : GoLib) : Value → GoString
  | .str s => TrimSpace s
  | .bytes b => TrimSpace b
  | .int n => decimal n
  | .int8 n => decimal n
  | .int16 n => decimal n
  | .int32 n => decimal n
  | .int64 n => decimal n
  | .uint n => decimalNat n
  | .uint8 n => decimalNat n
  | .uint16 n => decimalNat n
  | .uint32 n => decimalNat n
  | .uint64 n => decimalNat n
  | .float64 x => L.formatFloat64 x
  | .bool b => if b then ['1'] else ['0']
  | .nil => []
  | v => TrimSpace (Fprint L v)

/-- Every rune of the text is white space. -/
def allSpace (s : GoString) : Prop := ∀ c ∈ s, isSpace c = true

instance (s : GoString) : Decidable (allSpace s) := by
  unfold allSpace
  infer_instance

/-- Two runes that are equal or are the two cases of one ASCII letter: both are
ASCII, and moving an upper-case letter (`'A'..'Z'`, 65..90) down to its
lower-case form sends them to the same code.  This is `sameLetter` kept to
ASCII runes (`caseVariant_iff`). -/
def caseVariant (c d : Char) : Prop :=
  c = d ∨ (c.toNat ≤ 0x7F ∧ d.toNat ≤ 0x7F ∧
    (if 65 ≤ c.toNat ∧ c.toNat ≤ 90 then c.toNat + 32 else c.toNat) =
    (if 65 ≤ d.toNat ∧ d.toNat ≤ 90 then d.toNat + 32 else d.toNat))

/-- The upper-case form of a rune as the alphabet gives it: the letter of
`A`..`Z` standing where the rune stands in `a`..`z`, and the rune itself when
it is not one of `a`..`z`. -/
def upperOfAlphabet (c : Char) : Char :=
  (("abcdefghijklmnopqrstuvwxyz".toList.zip "ABCDEFGHIJKLMNOPQRSTUVWXYZ".toList).lookup c).getD c

/-- The upper-case form of a rune: by the alphabet for an ASCII rune, by the
Unicode upper-case mapping above ASCII. -/
def upperCased (L : GoLib) (c : Char) : Char :=
  if c.toNat ≤ 0x7F then upperOfAlphabet c else L.upperTable c

/-- The lower-case form of a rune as the alphabet gives it: the letter of
`a`..`z` standing where the rune stands in `A`..`Z`, and the rune itself when
it is not one of `A`..`Z`. -/
def lowerOfAlphabet (c : Char) : Char :=
  (("ABCDEFGHIJKLMNOPQRSTUVWXYZ".toList.zip "abcdefghijklmnopqrstuvwxyz".toList).lookup c).getD c

/-- The lower-case form of a rune: by the alphabet for an ASCII rune, by the
Unicode lower-case mapping above ASCII. -/
def lowerCased (L : GoLib) (c : Char) : Char :=
  if c.toNat ≤ 0x7F then lowerOfAlphabet c else L.lowerTable c

/-- Two runes that differ at most in letter case: they have the same
lower-case form. -/
def sameLetter (L : GoLib) (c d : Char) : Prop := lowerCased L c = lowerCased L d

instance (L : GoLib) (c d : Char) : Decidable (sameLetter L c d) := by
  unfold sameLetter
  infer_instance

/-- The dynamic type of the argument is an integer type, signed or unsigned,
of any width. -/
def Value.isInteger : Value → Bool
  | .int _ | .int8 _ | .int16 _ | .int32 _ | .int64 _ => true
  | .uint _ | .uint8 _ | .uint16 _ | .uint32 _ | .uint64 _ => true
  | _ => false

/-- The dynamic type of the argument is `float32` or `float64`. -/
def Value.isFloat : Value → Bool
  | .float32 _ | .float64 _ => true
  | _ => false

/-- The setter calls that can be made on a handle; `expectMap` carries the
order in which the map is iterated. -/
inductive Call where
  | expect (response : Reply)
  | expectMap (range : List (GoString × GoString))
  | expectError (err : Option GoError)

/-- The effect of one setter call on the cell. -/
def Call.apply (k : Call) (c : Cmd) : Cmd :=
  match k with
  | .expect r => c.Expect r
  | .expectMap m => c.ExpectMap m
  | .expectError e => c.ExpectError e

/-- The effect of a sequence of setter calls, first call first. -/
def Call.run (ks : List Call) (c : Cmd) : Cmd := ks.foldl (fun c k => k.apply c) c

/-- The cell holds no response or holds no error. -/
def Cmd.exclusive (c : Cmd) : Prop := c.Response = .value .nil ∨ c.Error = none

/-- The keys present in the registry. -/
def State.hasKey (s : State) (key : GoString) : Prop := s.commands key ≠ none

/-- Every pointer stored in the registry points into the heap. -/
def State.wf (s : State) : Prop := ∀ key p, s.commands key = some p → p < s.heap.length

/-- The pairs of consecutive elements of a sequence. -/
def pairs : List Value → List (Value × Value)
  | a :: b :: rest => (a, b) :: pairs rest
  | _ => []

/-- The scenario of the overwrite law: register, set `r₁` on the handle,
register the same command and arguments again, set `r₂` on the new handle. -/
def registerTwice (L : GoLib) (commandName : GoString) (args : List Value) (s : State)
    (r₁ r₂ : Reply) : State :=
  let first := Command L commandName args s
  let s₂ := first.2.Expect first.1 r₁
  let second := Command L commandName args s₂
  second.2.Expect second.1 r₂

/-- The same scenario with both registrations made first and the first handle
set last. -/
def registerTwiceThenSet (L : GoLib) (commandName : GoString) (args : List Value) (s : State)
    (r₁ r₂ : Reply) : State :=
  let first := Command L commandName args s
  let second := Command L commandName args first.2
  let s₃ := second.2.Expect second.1 r₂
  s₃.Expect first.1 r₁

/-! ## Lemmas on trimming and formatting -/

theorem trimLeft_append_space (pre s : GoString) (h : allSpace pre) :
    trimLeft (pre ++ s) = trimLeft s := by
  unfold trimLeft
  exact List.dropWhile_append_of_pos h

theorem trimRight_append_space (s post : GoString) (h : allSpace post) :
    trimRight (s ++ post) = trimRight s := by
  unfold trimRight
  rw [List.reverse_append]
  congr 1
  apply List.dropWhile_append_of_pos
  intro c hc
  exact h c (List.mem_reverse.mp hc)

theorem trimLeft_eq_nil_of_allSpace (s : GoString) (h : allSpace s) : trimLeft s = [] := by
  unfold trimLeft
  exact List.dropWhile_eq_nil_iff.mpr h

theorem allSpace_append {s t : GoString} (hs : allSpace s) (ht : allSpace t) :
    allSpace (s ++ t) := by
  intro c hc
  rcases List.mem_append.mp hc with h | h
  · exact hs c h
  · exact ht c h

theorem trimLeft_append_right (s post : GoString) (h : trimLeft s ≠ []) :
    trimLeft (s ++ post) = trimLeft s ++ post := by
  unfold trimLeft at *
  rw [List.dropWhile_append]
  cases hd : List.dropWhile isSpace s with
  | nil => exact absurd hd h
  | cons a l => simp

/-- White space around a text does not change what `TrimSpace` returns. -/
theorem TrimSpace_pad (pre s post : GoString) (hpre : allSpace pre) (hpost : allSpace post) :
    TrimSpace (pre ++ s ++ post) = TrimSpace s := by
  unfold TrimSpace
  rw [List.append_assoc, trimLeft_append_space _ _ hpre]
  by_cases h : trimLeft s = []
  · have hs : allSpace s := by
      unfold trimLeft at h
      exact List.dropWhile_eq_nil_iff.mp h
    rw [trimLeft_eq_nil_of_allSpace _ (allSpace_append hs hpost), h]
  · rw [trimLeft_append_right _ _ h, trimRight_append_space _ _ hpost]

/-- A text that neither starts nor ends with white space is left as it is. -/
theorem TrimSpace_eq_self (s : GoString) (h : ∀ c ∈ s, isSpace c = false) : TrimSpace s = s := by
  have hl : ∀ t : GoString, (∀ c ∈ t, isSpace c = false) → List.dropWhile isSpace t = t := by
    intro t ht
    cases t with
    | nil => rfl
    | cons a l =>
      have := ht a (List.mem_cons_self a l)
      simp [List.dropWhile, this]
  unfold TrimSpace trimRight trimLeft
  rw [hl s h, hl s.reverse (fun c hc => h c (List.mem_reverse.mp hc)), List.reverse_reverse]

theorem head?_dropWhile_isSpace (s : GoString) (c : Char)
    (h : (s.dropWhile isSpace).head? = some c) : isSpace c = false := by
  have := List.head?_dropWhile_not isSpace s
  rw [h] at this
  exact this

theorem trimRight_decompose (t : GoString) :
    t = trimRight t ++ (t.reverse.takeWhile isSpace).reverse := by
  unfold trimRight
  rw [← List.reverse_append, List.takeWhile_append_dropWhile, List.reverse_reverse]

/-- `TrimSpace` removes white space at both ends and nothing else: the text is
the result with white space before and after it, and the result neither
starts nor ends with white space. -/
theorem TrimSpace_decompose (s : GoString) :
    ∃ lead trail : GoString, allSpace lead ∧ allSpace trail
      ∧ s = lead ++ TrimSpace s ++ trail
      ∧ (∀ c, (TrimSpace s).head? = some c → isSpace c = false)
      ∧ (∀ c, (TrimSpace s).getLast? = some c → isSpace c = false) := by
  refine ⟨s.takeWhile isSpace, ((trimLeft s).reverse.takeWhile isSpace).reverse,
    ?_, ?_, ?_, ?_, ?_⟩
  · intro c hc
    exact List.mem_takeWhile_imp hc
  · intro c hc
    exact List.mem_takeWhile_imp (List.mem_reverse.mp hc)
  · unfold TrimSpace
    rw [List.append_assoc, ← trimRight_decompose]
    unfold trimLeft
    rw [List.takeWhile_append_dropWhile]
  · intro c hc
    have hd := trimRight_decompose (trimLeft s)
    have : (trimLeft s).head? = some c := by
      rw [hd, List.head?_append]
      unfold TrimSpace at hc
      rw [hc]
      rfl
    exact head?_dropWhile_isSpace s c this
  · intro c hc
    unfold TrimSpace trimRight at hc
    rw [List.getLast?_reverse] at hc
    exact head?_dropWhile_isSpace _ c hc

theorem digitChar_zero : digitChar 0 = '0' := by decide

theorem isSpace_digitChar (d : Nat) (h : d < 10) : isSpace (digitChar d) = false := by
  interval_cases d <;> decide

theorem formatBitsAux_eq (fuel : Nat) : ∀ (u : Nat) (acc : GoString), u ≤ fuel →
    formatBitsAux fuel u acc = decimalNat u ++ acc := by
  induction fuel with
  | zero =>
    intro u acc h
    have : u = 0 := by omega
    subst this
    simp [formatBitsAux, decimalNat, digitChar_zero]
  | succ fuel ih =>
    intro u acc h
    unfold formatBitsAux
    split
    · rename_i h10
      rw [ih (u / 10) _ (by omega)]
      have hu : 0 < u := by omega
      have hq : u / 10 ≠ 0 := by omega
      have hne : u ≠ 0 := by omega
      simp [decimalNat, hq, hne, Nat.digits_def' (by decide : 1 < 10) hu]
    · rename_i h10
      by_cases h0 : u = 0
      · subst h0
        simp [decimalNat, digitChar_zero]
      · simp [decimalNat, h0, Nat.digits_of_lt 10 u h0 (by omega)]

/-- The digit loop produces the decimal rendering. -/
theorem formatBits_eq_decimalNat (u : Nat) : formatBits u = decimalNat u := by
  unfold formatBits
  rw [formatBitsAux_eq u u [] (Nat.le_refl u), List.append_nil]

theorem FormatInt_eq_decimal (i : Int) : FormatInt i = decimal i := by
  unfold FormatInt decimal
  simp [formatBits_eq_decimalNat]

theorem isSpace_decimalNat (n : Nat) : ∀ c ∈ decimalNat n, isSpace c = false := by
  intro c hc
  unfold decimalNat at hc
  split at hc
  · simp at hc
    subst hc
    decide
  · simp only [List.mem_map, List.mem_reverse] at hc
    obtain ⟨d, hd, rfl⟩ := hc
    exact isSpace_digitChar d (Nat.digits_lt_base (by decide) hd)

theorem isSpace_decimal (i : Int) : ∀ c ∈ decimal i, isSpace c = false := by
  intro c hc
  unfold decimal at hc
  split at hc
  · rcases List.mem_cons.mp hc with h | h
    · subst h
      decide
    · exact isSpace_decimalNat _ c h
  · exact isSpace_decimalNat _ c hc

theorem TrimSpace_decimal (i : Int) : TrimSpace (decimal i) = decimal i :=
  TrimSpace_eq_self _ (isSpace_decimal i)

theorem TrimSpace_decimalNat (n : Nat) : TrimSpace (decimalNat n) = decimalNat n :=
  TrimSpace_eq_self _ (isSpace_decimalNat n)

/-- One iteration of the loop appends a space and the normalized token. -/
theorem step_eq_token (L : GoLib) (key : GoString) (arg : Value) :
    generateKey.step L key arg = key ++ ' ' :: normalizedToken L arg := by
  cases arg with
  | bool b => cases b <;> simp [generateKey.step, normalizedToken]
  | _ =>
    simp [generateKey.step, normalizedToken, Itoa, Fprint, FormatInt_eq_decimal,
      formatBits_eq_decimalNat, TrimSpace_decimal, TrimSpace_decimalNat]

theorem foldl_step_eq (L : GoLib) (args : List Value) : ∀ key : GoString,
    args.foldl (generateKey.step L) key
      = key ++ (args.map fun a => ' ' :: normalizedToken L a).flatten := by
  induction args with
  | nil => intro key; simp
  | cons a rest ih =>
    intro key
    rw [List.foldl_cons, ih, step_eq_token]
    simp

/-- The key in closed form: the normalized command name followed by a space
and the normalized token for every argument. -/
theorem generateKey_eq (L : GoLib) (commandName : GoString) (args : List Value) :
    generateKey L commandName args
      = ToUpper L (TrimSpace commandName)
        ++ (args.map fun a => ' ' :: normalizedToken L a).flatten := by
  unfold generateKey
  exact foldl_step_eq L args _

/-- The key depends on the arguments only through their normalized tokens. -/
theorem generateKey_congr (L : GoLib) (n₁ n₂ : GoString) (a₁ a₂ : List Value)
    (hn : ToUpper L (TrimSpace n₁) = ToUpper L (TrimSpace n₂))
    (ha : a₁.map (normalizedToken L) = a₂.map (normalizedToken L)) :
    generateKey L n₁ a₁ = generateKey L n₂ a₂ := by
  rw [generateKey_eq, generateKey_eq, hn]
  congr 2
  have h := congrArg (List.map fun t : GoString => ' ' :: t) ha
  simpa [List.map_map] using h

theorem char_le_iff (c d : Char) : c ≤ d ↔ c.toNat ≤ d.toNat := Iff.rfl

theorem asciiUpper_eq (r : Char) :
    asciiUpper r = if 97 ≤ r.toNat ∧ r.toNat ≤ 122 then Char.ofNat (r.toNat - 32) else r := by
  unfold asciiUpper
  simp only [char_le_iff]
  rfl

theorem isSpace_letter (c : Char) (h : 65 ≤ c.toNat ∧ c.toNat ≤ 122) : isSpace c = false := by
  unfold isSpace
  simp
  omega

theorem char_eq_of_toNat_eq (c d : Char) (h : c.toNat = d.toNat) : c = d := by
  rw [← Char.ofNat_toNat c, ← Char.ofNat_toNat d, h]

theorem caseVariant_isSpace (c d : Char) (h : caseVariant c d) : isSpace c = isSpace d := by
  rcases h with h | ⟨_, _, h⟩
  · rw [h]
  · by_cases hc : 65 ≤ c.toNat ∧ c.toNat ≤ 90 <;> by_cases hd : 65 ≤ d.toNat ∧ d.toNat ≤ 90
    · simp only [hc, hd, and_self, if_true] at h
      rw [char_eq_of_toNat_eq c d (by omega)]
    · simp only [hc, hd, and_self, if_true, if_false] at h
      rw [isSpace_letter c (by omega), isSpace_letter d (by omega)]
    · simp only [hc, hd, and_self, if_true, if_false] at h
      rw [isSpace_letter c (by omega), isSpace_letter d (by omega)]
    · simp only [hc, hd, if_false] at h
      rw [char_eq_of_toNat_eq c d h]

theorem caseVariant_upper (L : GoLib) (c d : Char) (h : caseVariant c d) :
    unicodeToUpper L c = unicodeToUpper L d := by
  rcases h with h | ⟨h1, h2, h⟩
  · rw [h]
  · unfold unicodeToUpper
    rw [if_pos h1, if_pos h2, asciiUpper_eq, asciiUpper_eq]
    by_cases hc : 65 ≤ c.toNat ∧ c.toNat ≤ 90 <;> by_cases hd : 65 ≤ d.toNat ∧ d.toNat ≤ 90
    · simp only [hc, hd, and_self, if_true] at h
      rw [char_eq_of_toNat_eq c d (by omega)]
    · simp only [hc, hd, and_self, if_true, if_false] at h
      have e : d.toNat - 32 = c.toNat := by omega
      rw [if_neg (by omega), if_pos (by omega), e, Char.ofNat_toNat]
    · simp only [hc, hd, and_self, if_true, if_false] at h
      have e : c.toNat - 32 = d.toNat := by omega
      rw [if_pos (by omega), if_neg (by omega), e, Char.ofNat_toNat]
    · simp only [hc, hd, if_false] at h
      rw [char_eq_of_toNat_eq c d h]

theorem forall₂_dropWhile {R : Char → Char → Prop} {p : Char → Bool}
    (hp : ∀ c d, R c d → p c = p d) : ∀ {l₁ l₂ : List Char}, List.Forall₂ R l₁ l₂ →
    List.Forall₂ R (l₁.dropWhile p) (l₂.dropWhile p)
  | _, _, .nil => List.Forall₂.nil
  | a :: l₁, b :: l₂, .cons hab hl => by
    have e := hp a b hab
    cases hb : p b
    · rw [hb] at e
      rw [List.dropWhile_cons_of_neg (by simp [e]), List.dropWhile_cons_of_neg (by simp [hb])]
      exact List.Forall₂.cons hab hl
    · rw [hb] at e
      rw [List.dropWhile_cons_of_pos e, List.dropWhile_cons_of_pos hb]
      exact forall₂_dropWhile hp hl

theorem forall₂_TrimSpace {l₁ l₂ : GoString} (h : List.Forall₂ caseVariant l₁ l₂) :
    List.Forall₂ caseVariant (TrimSpace l₁) (TrimSpace l₂) := by
  unfold TrimSpace trimRight trimLeft
  apply List.forall₂_reverse_iff.mp
  rw [List.reverse_reverse, List.reverse_reverse]
  apply forall₂_dropWhile caseVariant_isSpace
  apply List.forall₂_reverse_iff.mpr
  exact forall₂_dropWhile caseVariant_isSpace h

theorem forall₂_ToUpper (L : GoLib) {l₁ l₂ : GoString} (h : List.Forall₂ caseVariant l₁ l₂) :
    ToUpper L l₁ = ToUpper L l₂ := by
  unfold ToUpper
  induction h with
  | nil => rfl
  | cons hab _ ih => simp [caseVariant_upper L _ _ hab, ih]

set_option maxRecDepth 100000 in
theorem asciiUpper_alphabet :
    ∀ n, n < 128 → asciiUpper (Char.ofNat n) = upperOfAlphabet (Char.ofNat n) := by
  decide

/-- The rune mapping of `strings.ToUpper` is upper-casing. -/
theorem unicodeToUpper_eq_upperCased (L : GoLib) (c : Char) :
    unicodeToUpper L c = upperCased L c := by
  unfold unicodeToUpper upperCased
  split
  · rename_i h
    have := asciiUpper_alphabet c.toNat (by omega)
    rwa [Char.ofNat_toNat] at this
  · rfl

theorem ToUpper_eq_map (L : GoLib) (s : GoString) : ToUpper L s = s.map (upperCased L) := by
  unfold ToUpper
  congr 1
  funext c
  exact unicodeToUpper_eq_upperCased L c

set_option maxRecDepth 100000 in
theorem lowerOfAlphabet_code :
    ∀ n, n < 128 → (lowerOfAlphabet (Char.ofNat n)).toNat
      = if 65 ≤ n ∧ n ≤ 90 then n + 32 else n := by
  decide

/-- On ASCII runes `caseVariant` is `sameLetter`. -/
theorem caseVariant_iff (L : GoLib) (c d : Char) :
    caseVariant c d ↔ c = d ∨ (c.toNat ≤ 0x7F ∧ d.toNat ≤ 0x7F ∧ sameLetter L c d) := by
  have key : ∀ x : Char, x.toNat ≤ 0x7F →
      (lowerCased L x).toNat = if 65 ≤ x.toNat ∧ x.toNat ≤ 90 then x.toNat + 32 else x.toNat := by
    intro x hx
    unfold lowerCased
    rw [if_pos hx]
    have := lowerOfAlphabet_code x.toNat (by omega)
    rwa [Char.ofNat_toNat] at this
  unfold caseVariant sameLetter
  constructor
  · rintro (h | ⟨hc, hd, h⟩)
    · exact Or.inl h
    · refine Or.inr ⟨hc, hd, char_eq_of_toNat_eq _ _ ?_⟩
      rw [key c hc, key d hd]
      exact h
  · rintro (h | ⟨hc, hd, h⟩)
    · exact Or.inl h
    · refine Or.inr ⟨hc, hd, ?_⟩
      rw [← key c hc, ← key d hd, h]

theorem append_ne_of_ne {α : Type} (a b : List α) (x y : List α)
    (hlen : a.length = b.length) (hne : a ≠ b) : a ++ x ≠ b ++ y := by
  intro h
  exact hne (List.append_inj h hlen).1

/-! ## Lemmas on the registry -/

theorem heap_append_new (heap : List Cmd) (c : Cmd) : (heap ++ [c])[heap.length]? = some c := by
  simp

theorem heap_append_old (heap : List Cmd) (c : Cmd) (p : Nat) (h : p < heap.length) :
    (heap ++ [c])[p]? = heap[p]? := by
  simp [List.getElem?_append_left h]

theorem call_commands (s : State) (c : Nat) (f : Cmd → Cmd) :
    (s.call c f).commands = s.commands := by
  unfold State.call
  split <;> rfl

theorem call_heap_length (s : State) (c : Nat) (f : Cmd → Cmd) :
    (s.call c f).heap.length = s.heap.length := by
  unfold State.call
  split <;> simp

theorem call_heap_self (s : State) (c : Nat) (f : Cmd → Cmd) (cell : Cmd)
    (h : s.heap[c]? = some cell) : (s.call c f).heap[c]? = some (f cell) := by
  unfold State.call
  rw [h]
  have hlt : c < s.heap.length := by
    rcases Nat.lt_or_ge c s.heap.length with h' | h'
    · exact h'
    · rw [List.getElem?_eq_none h'] at h
      cases h
  simp [List.getElem?_set, hlt]

theorem call_heap_other (s : State) (c : Nat) (f : Cmd → Cmd) (p : Nat) (h : p ≠ c) :
    (s.call c f).heap[p]? = s.heap[p]? := by
  unfold State.call
  split
  · rfl
  · simp [List.getElem?_set, Ne.symm h]

theorem call_entry_self (s : State) (c : Nat) (f : Cmd → Cmd) (cell : Cmd) (key : GoString)
    (hk : s.commands key = some c) (h : s.heap[c]? = some cell) :
    (s.call c f).entry key = some (f cell) := by
  unfold State.entry
  rw [call_commands, hk]
  exact call_heap_self s c f cell h

theorem Command_commands_self (L : GoLib) (n : GoString) (a : List Value) (s : State) :
    (Command L n a s).2.commands (generateKey L n a) = some (Command L n a s).1 := by
  simp [Command]

theorem Command_heap_self (L : GoLib) (n : GoString) (a : List Value) (s : State) :
    (Command L n a s).2.heap[(Command L n a s).1]? = some Cmd.zero := by
  simp [Command]

theorem Command_entry_self (L : GoLib) (n : GoString) (a : List Value) (s : State) :
    (Command L n a s).2.entry (generateKey L n a) = some Cmd.zero := by
  unfold State.entry
  rw [Command_commands_self]
  exact Command_heap_self L n a s

theorem Command_commands_other (L : GoLib) (n : GoString) (a : List Value) (s : State)
    (key : GoString) (h : key ≠ generateKey L n a) :
    (Command L n a s).2.commands key = s.commands key := by
  simp [Command, Function.update, h]

theorem Command_heap_old (L : GoLib) (n : GoString) (a : List Value) (s : State) (p : Nat)
    (h : p < s.heap.length) : (Command L n a s).2.heap[p]? = s.heap[p]? := by
  simp [Command, List.getElem?_append_left h]

theorem Command_entry_other (L : GoLib) (n : GoString) (a : List Value) (s : State)
    (hwf : s.wf) (key : GoString) (h : key ≠ generateKey L n a) :
    (Command L n a s).2.entry key = s.entry key := by
  unfold State.entry
  rw [Command_commands_other L n a s key h]
  cases hk : s.commands key with
  | none => rfl
  | some p => exact Command_heap_old L n a s p (hwf key p hk)

theorem GenericCommand_eq_Command (L : GoLib) (n : GoString) (s : State) :
    GenericCommand L n s = Command L n [] s := rfl

theorem wf_init : State.init.wf := by
  intro key p h
  cases h

theorem wf_Command (L : GoLib) (n : GoString) (a : List Value) (s : State) (hwf : s.wf) :
    (Command L n a s).2.wf := by
  intro key p h
  by_cases hk : key = generateKey L n a
  · subst hk
    rw [Command_commands_self] at h
    cases h
    simp [Command]
  · rw [Command_commands_other L n a s key hk] at h
    have := hwf key p h
    simp [Command]
    omega

theorem wf_call (s : State) (c : Nat) (f : Cmd → Cmd) (hwf : s.wf) : (s.call c f).wf := by
  intro key p h
  rw [call_commands] at h
  rw [call_heap_length]
  exact hwf key p h

theorem loop_eq_flatMap (range : List (GoString × GoString)) :
    ExpectMap.loop range = range.flatMap fun kv => [Value.bytes kv.1, Value.bytes kv.2] := by
  unfold ExpectMap.loop
  suffices h : ∀ (acc : List Value), range.foldl
      (fun values kv => (values ++ [Value.bytes kv.1]) ++ [Value.bytes kv.2]) acc
      = acc ++ range.flatMap fun kv => [Value.bytes kv.1, Value.bytes kv.2] by
    simpa using h []
  induction range with
  | nil => intro acc; simp
  | cons kv rest ih => intro acc; rw [List.foldl_cons, ih]; simp

theorem pairs_flatMap (range : List (GoString × GoString)) :
    pairs (range.flatMap fun kv => [Value.bytes kv.1, Value.bytes kv.2])
      = range.map fun kv => (Value.bytes kv.1, Value.bytes kv.2) := by
  induction range with
  | nil => rfl
  | cons kv rest ih =>
    rw [List.flatMap_cons, List.map_cons]
    show pairs (Value.bytes kv.1 :: Value.bytes kv.2 ::
      (rest.flatMap fun kv => [Value.bytes kv.1, Value.bytes kv.2])) = _
    rw [pairs, ih]

theorem flatMap_pair_length (range : List (GoString × GoString)) :
    (range.flatMap fun kv => [Value.bytes kv.1, Value.bytes kv.2]).length = 2 * range.length := by
  induction range with
  | nil => rfl
  | cons kv rest ih => simp [ih]; omega

theorem flatMap_pair_get (range : List (GoString × GoString)) :
    ∀ (i : Nat) (kv : GoString × GoString), range[i]? = some kv →
      (range.flatMap fun kv => [Value.bytes kv.1, Value.bytes kv.2])[2 * i]? = some (.bytes kv.1) ∧
      (range.flatMap fun kv => [Value.bytes kv.1, Value.bytes kv.2])[2 * i + 1]?
        = some (.bytes kv.2) := by
  induction range with
  | nil => intro i kv h; simp at h
  | cons x rest ih =>
    intro i kv h
    cases i with
    | zero =>
      simp at h
      subst h
      simp
    | succ j =>
      simp at h
      have := ih j kv h
      have e1 : 2 * (j + 1) = (2 * j) + 1 + 1 := by omega
      simp only [List.flatMap_cons, List.cons_append, List.nil_append, e1,
        List.getElem?_cons_succ]
      exact this

theorem run_snoc (ks : List Call) (k : Call) (c : Cmd) :
    Call.run (ks ++ [k]) c = k.apply (Call.run ks c) := by
  simp [Call.run, List.foldl_append]

theorem apply_const (k : Call) (c₁ c₂ : Cmd) : k.apply c₁ = k.apply c₂ := by
  cases k <;> rfl

theorem apply_exclusive (k : Call) (c : Cmd) : (k.apply c).exclusive := by
  cases k
  · right; rfl
  · right; rfl
  · left; rfl

/-! ## Key generation -/

/-- C1: `generateKey` is a function of the command name and the argument list
alone (the registry is not among its inputs or outputs), and the key it
returns is the command name trimmed of surrounding white space and
upper-cased, followed, for each argument in argument order, by one space and
the normalized token of that argument.  Trimming removes white space before
and after the name and leaves a text that neither starts nor ends with white
space; upper-casing replaces every rune by its upper-case form, which for an
ASCII rune is the letter of `A`..`Z` at its place in `a`..`z` (the rune itself
when it is no such letter) and above ASCII is given by the Unicode table; so
the key of `(" get ", "x")` is `GET x`. -/
theorem generateKey_spec (L : GoLib) (commandName : GoString) (args : List Value) :
    generateKey L commandName args
      = (TrimSpace commandName).map (upperCased L)
        ++ (args.map fun a => ' ' :: normalizedToken L a).flatten
    ∧ (∃ lead trail : GoString, allSpace lead ∧ allSpace trail
      ∧ commandName = lead ++ TrimSpace commandName ++ trail
      ∧ (∀ c, (TrimSpace commandName).head? = some c → isSpace c = false)
      ∧ (∀ c, (TrimSpace commandName).getLast? = some c → isSpace c = false))
    ∧ generateKey L " get ".toList [Value.str "x".toList] = "GET x".toList := by
  refine ⟨?_, TrimSpace_decompose commandName, ?_⟩
  · rw [generateKey_eq, ToUpper_eq_map]
  · rw [generateKey_eq, ToUpper_eq_map]
    have h : TrimSpace " get ".toList = "get".toList := by decide
    rw [h]
    have hx : TrimSpace ['x'] = ['x'] := by decide
    simp [normalizedToken, upperCased, hx]
    decide

/-- C5: at every position of the argument list, a byte sequence and the string
with the same content give the same key; in particular the keys of
`("SET", "a")` and `("SET", []byte{'a'})` are equal. -/
theorem generateKey_bytes_eq_str (L : GoLib) (commandName : GoString)
    (before after : List Value) (b : GoString) :
    generateKey L commandName (before ++ Value.bytes b :: after)
      = generateKey L commandName (before ++ Value.str b :: after)
    ∧ generateKey L "SET".toList [Value.str "a".toList]
      = generateKey L "SET".toList [Value.bytes ['a']] := by
  constructor
  · apply generateKey_congr L _ _ _ _ rfl
    simp [normalizedToken]
  · apply generateKey_congr L _ _ _ _ rfl
    simp [normalizedToken]

/-- C10: for a non-empty argument list, the generic key is the command-name
token alone, and it is a proper initial segment of, hence strictly shorter
than, the key with the arguments. -/
theorem generic_key_shorter (L : GoLib) (commandName : GoString) (args : List Value)
    (h : args ≠ []) :
    generateKey L commandName [] = ToUpper L (TrimSpace commandName)
    ∧ generateKey L commandName [] <+: generateKey L commandName args
    ∧ generateKey L commandName [] ≠ generateKey L commandName args
    ∧ (generateKey L commandName []).length < (generateKey L commandName args).length := by
  have h0 : generateKey L commandName [] = ToUpper L (TrimSpace commandName) := rfl
  have hlen : (generateKey L commandName []).length
      < (generateKey L commandName args).length := by
    rw [h0, generateKey_eq L commandName args]
    cases args with
    | nil => exact absurd rfl h
    | cons a rest => simp
  refine ⟨h0, ?_, ?_, hlen⟩
  · rw [h0, generateKey_eq L commandName args]
    exact List.prefix_append _ _
  · intro e
    rw [e] at hlen
    exact Nat.lt_irrefl _ hlen

theorem generic_key_shorter_witness :
    ([Value.str "list".toList, Value.str "v1".toList] : List Value) ≠ []
    ∧ (generateKey GoLib.ascii "LPUSH".toList []).length
      < (generateKey GoLib.ascii "LPUSH".toList
          [Value.str "list".toList, Value.str "v1".toList]).length :=
  ⟨by decide, (generic_key_shorter GoLib.ascii "LPUSH".toList
    [Value.str "list".toList, Value.str "v1".toList] (by decide)).2.2.2⟩

/-- C11: `GenericCommand(commandName)` and `Command(commandName)` without
arguments return the same handle and leave the same registry; the key is the
command name trimmed of surrounding white space, every rune replaced by its
upper-case form, and the registry holds a fresh expectation there (the
returned handle).  For the name ` get ` the key is `GET`. -/
theorem GenericCommand_is_Command_nil (L : GoLib) (commandName : GoString) (s : State) :
    GenericCommand L commandName s = Command L commandName [] s
    ∧ generateKey L commandName [] = (TrimSpace commandName).map (upperCased L)
    ∧ (GenericCommand L commandName s).2.commands ((TrimSpace commandName).map (upperCased L))
        = some (GenericCommand L commandName s).1
    ∧ (GenericCommand L commandName s).2.entry ((TrimSpace commandName).map (upperCased L))
        = some Cmd.zero
    ∧ (∃ lead trail : GoString, allSpace lead ∧ allSpace trail
      ∧ commandName = lead ++ TrimSpace commandName ++ trail
      ∧ (∀ c, (TrimSpace commandName).head? = some c → isSpace c = false)
      ∧ (∀ c, (TrimSpace commandName).getLast? = some c → isSpace c = false))
    ∧ (GenericCommand L " get ".toList s).2.entry "GET".toList = some Cmd.zero
    ∧ (Command L " get ".toList [] s).2.entry "GET".toList = some Cmd.zero := by
  have hkey : ∀ n : GoString, generateKey L n [] = (TrimSpace n).map (upperCased L) := by
    intro n
    rw [← ToUpper_eq_map]
    rfl
  have hget : (TrimSpace " get ".toList).map (upperCased L) = "GET".toList := by
    have h : TrimSpace " get ".toList = "get".toList := by decide
    rw [h]
    simp [upperCased]
    decide
  have hentry : ∀ n : GoString,
      (Command L n [] s).2.entry ((TrimSpace n).map (upperCased L)) = some Cmd.zero := by
    intro n
    rw [← hkey]
    exact Command_entry_self L n [] s
  refine ⟨rfl, hkey commandName, ?_, ?_, TrimSpace_decompose commandName, ?_, ?_⟩
  · rw [GenericCommand_eq_Command, ← hkey]
    exact Command_commands_self L commandName [] s
  · rw [GenericCommand_eq_Command]
    exact hentry commandName
  · rw [GenericCommand_eq_Command, ← hget]
    exact hentry _
  · rw [← hget]
    exact hentry _

/-- C12: the token an argument adds to the key, after one space: for a string
or a byte sequence its content trimmed of surrounding white space, for an
`int` or `int64` its decimal rendering (with a leading `-` when negative), for
a bool `1` or `0`, for nil nothing, so that the key of `("GET", nil)` is
`GET` followed by one space.  Trimming removes white space before and after
the content and leaves a text that neither starts nor ends with white space. -/
theorem generateKey_token_rules (L : GoLib) (commandName : GoString) (args : List Value) :
    (∀ s, generateKey L commandName (args ++ [Value.str s])
        = generateKey L commandName args ++ ' ' :: TrimSpace s)
    ∧ (∀ b, generateKey L commandName (args ++ [Value.bytes b])
        = generateKey L commandName args ++ ' ' :: TrimSpace b)
    ∧ (∀ n, generateKey L commandName (args ++ [Value.int n])
        = generateKey L commandName args ++ ' ' :: decimal n)
    ∧ (∀ n, generateKey L commandName (args ++ [Value.int64 n])
        = generateKey L commandName args ++ ' ' :: decimal n)
    ∧ generateKey L commandName (args ++ [Value.bool true])
        = generateKey L commandName args ++ " 1".toList
    ∧ generateKey L commandName (args ++ [Value.bool false])
        = generateKey L commandName args ++ " 0".toList
    ∧ generateKey L commandName (args ++ [Value.nil])
        = generateKey L commandName args ++ " ".toList
    ∧ generateKey L "GET".toList [Value.nil] = "GET ".toList
    ∧ decimal (-42) = "-42".toList
    ∧ (∀ s : GoString, ∃ lead trail : GoString, allSpace lead ∧ allSpace trail
        ∧ s = lead ++ TrimSpace s ++ trail
        ∧ (∀ c, (TrimSpace s).head? = some c → isSpace c = false)
        ∧ (∀ c, (TrimSpace s).getLast? = some c → isSpace c = false)) := by
  have key : ∀ a, generateKey L commandName (args ++ [a])
      = generateKey L commandName args ++ ' ' :: normalizedToken L a := by
    intro a
    unfold generateKey
    rw [List.foldl_append, List.foldl_cons, List.foldl_nil, step_eq_token]
  refine ⟨fun s => key _, fun b => key _, fun n => key _, fun n => key _, key _, key _,
    key _, ?_, ?_, TrimSpace_decompose⟩
  · rw [generateKey_eq]
    have h : ToUpper L (TrimSpace "GET".toList) = "GET".toList := by
      have ht : TrimSpace "GET".toList = "GET".toList := by decide
      rw [ht]
      simp [ToUpper, unicodeToUpper, asciiUpper_eq]
    rw [h]
    rfl
  · rw [← FormatInt_eq_decimal]
    decide

/-- C13: white space added around the content of a string or byte-sequence
argument, at any position of the argument list, does not change the key. -/
theorem generateKey_arg_whitespace (L : GoLib) (commandName : GoString)
    (before after : List Value) (lead content trail : GoString)
    (hlead : allSpace lead) (htrail : allSpace trail) :
    generateKey L commandName (before ++ Value.str (lead ++ content ++ trail) :: after)
      = generateKey L commandName (before ++ Value.str content :: after)
    ∧ generateKey L commandName (before ++ Value.bytes (lead ++ content ++ trail) :: after)
      = generateKey L commandName (before ++ Value.bytes content :: after) := by
  have h := TrimSpace_pad lead content trail hlead htrail
  constructor
  · apply generateKey_congr L _ _ _ _ rfl
    simp only [List.map_append, List.map_cons, normalizedToken, h]
  · apply generateKey_congr L _ _ _ _ rfl
    simp only [List.map_append, List.map_cons, normalizedToken, h]

theorem generateKey_arg_whitespace_witness :
    generateKey GoLib.ascii "SET".toList
        ([Value.str "k".toList] ++ Value.str (" \t".toList ++ "foo".toList ++ "\n".toList) :: [])
      = generateKey GoLib.ascii "SET".toList ([Value.str "k".toList] ++ Value.str "foo".toList :: []) :=
  (generateKey_arg_whitespace GoLib.ascii "SET".toList [Value.str "k".toList] []
    " \t".toList "foo".toList "\n".toList (by decide) (by decide)).1

/-- C4, as stated, fails above ASCII: the names made of the rune U+00DF (small
sharp s) and of the rune U+1E9E (capital sharp s) differ only in letter case,
U+00DF being the lower case of U+1E9E, but `strings.ToUpper` leaves both as
they are, so the keys differ and the expectation registered under one name is
not found at the key of the other.  The keys differ for every library whose
upper-case table leaves the two runes fixed, and for every argument list. -/
theorem name_case_beyond_ascii :
    List.Forall₂ (sameLetter GoLib.sharpS) [Char.ofNat 0xDF] [Char.ofNat 0x1E9E]
    ∧ generateKey GoLib.sharpS [Char.ofNat 0xDF] [Value.str "x".toList]
        ≠ generateKey GoLib.sharpS [Char.ofNat 0x1E9E] [Value.str "x".toList]
    ∧ (Command GoLib.sharpS [Char.ofNat 0xDF] [Value.str "x".toList] State.init).2.entry
        (generateKey GoLib.sharpS [Char.ofNat 0x1E9E] [Value.str "x".toList]) = none
    ∧ (∀ (L : GoLib) (args : List Value),
        L.upperTable (Char.ofNat 0xDF) = Char.ofNat 0xDF →
        L.upperTable (Char.ofNat 0x1E9E) = Char.ofNat 0x1E9E →
        generateKey L [Char.ofNat 0xDF] args ≠ generateKey L [Char.ofNat 0x1E9E] args) := by
  refine ⟨.cons (by decide) .nil, by decide, by decide, ?_⟩
  intro L args h₁ h₂
  rw [generateKey_eq, generateKey_eq]
  have t₁ : TrimSpace [Char.ofNat 0xDF] = [Char.ofNat 0xDF] := by decide
  have t₂ : TrimSpace [Char.ofNat 0x1E9E] = [Char.ofNat 0x1E9E] := by decide
  have u₁ : ToUpper L [Char.ofNat 0xDF] = [Char.ofNat 0xDF] := by
    have : ¬ (Char.ofNat 0xDF).toNat ≤ 0x7F := by decide
    simp only [ToUpper, List.map_cons, List.map_nil, unicodeToUpper, if_neg this, h₁]
  have u₂ : ToUpper L [Char.ofNat 0x1E9E] = [Char.ofNat 0x1E9E] := by
    have : ¬ (Char.ofNat 0x1E9E).toNat ≤ 0x7F := by decide
    simp only [ToUpper, List.map_cons, List.map_nil, unicodeToUpper, if_neg this, h₂]
  rw [t₁, t₂, u₁, u₂]
  exact append_ne_of_ne _ _ _ _ rfl (by decide)

/-- C4, amended: two command names that differ only in surrounding white space
and in the case of ASCII letters give the same key for every argument list, so
the expectation registered under the first name is the registry entry found
at the key of an invocation under the second; `("GET", "x")` and
`("get", "x")` are such a pair. -/
theorem generateKey_name_insensitive (L : GoLib) (args : List Value)
    (lead₁ name₁ trail₁ lead₂ name₂ trail₂ : GoString)
    (hl₁ : allSpace lead₁) (ht₁ : allSpace trail₁)
    (hl₂ : allSpace lead₂) (ht₂ : allSpace trail₂)
    (hcase : List.Forall₂ caseVariant name₁ name₂) (s : State) :
    generateKey L (lead₁ ++ name₁ ++ trail₁) args = generateKey L (lead₂ ++ name₂ ++ trail₂) args
    ∧ (Command L (lead₁ ++ name₁ ++ trail₁) args s).2.commands
        (generateKey L (lead₂ ++ name₂ ++ trail₂) args)
        = some (Command L (lead₁ ++ name₁ ++ trail₁) args s).1
    ∧ (Command L (lead₁ ++ name₁ ++ trail₁) args s).2.entry
        (generateKey L (lead₂ ++ name₂ ++ trail₂) args) = some Cmd.zero := by
  have hkey : generateKey L (lead₁ ++ name₁ ++ trail₁) args
      = generateKey L (lead₂ ++ name₂ ++ trail₂) args := by
    apply generateKey_congr L _ _ _ _ _ rfl
    rw [TrimSpace_pad _ _ _ hl₁ ht₁, TrimSpace_pad _ _ _ hl₂ ht₂]
    exact forall₂_ToUpper L (forall₂_TrimSpace hcase)
  refine ⟨hkey, ?_, ?_⟩
  · rw [← hkey]
    exact Command_commands_self L _ args s
  · rw [← hkey]
    exact Command_entry_self L _ args s

theorem generateKey_name_insensitive_witness :
    generateKey GoLib.ascii ([] ++ "GET".toList ++ []) [Value.str "x".toList]
      = generateKey GoLib.ascii (" ".toList ++ "get".toList ++ "\t".toList)
          [Value.str "x".toList] :=
  (generateKey_name_insensitive GoLib.ascii [Value.str "x".toList]
    [] "GET".toList [] " ".toList "get".toList "\t".toList
    (by decide) (by decide) (by decide) (by decide)
    (.cons (Or.inr (by decide)) (.cons (Or.inr (by decide)) (.cons (Or.inr (by decide)) .nil)))
    State.init).1

/-- C6, at the failing input: the registration `("SET", "key", NewAnyInt())`
is stored in `commands` under the key of the all-literal argument list
`("SET", "key", "{}")`, `fuzzyCommands` stays empty, as after every call of
`Command`, and a later registration of the literal list replaces the fuzzy
one. -/
theorem fuzzy_key_is_literal_key :
    generateKey GoLib.ascii "SET".toList [Value.str "key".toList, NewAnyInt]
      = generateKey GoLib.ascii "SET".toList
          [Value.str "key".toList, Value.str "\x7b\x7d".toList]
    ∧ (Command GoLib.ascii "SET".toList [Value.str "key".toList, NewAnyInt] State.init).2.commands
        (generateKey GoLib.ascii "SET".toList
          [Value.str "key".toList, Value.str "\x7b\x7d".toList])
      = some (Command GoLib.ascii "SET".toList
          [Value.str "key".toList, NewAnyInt] State.init).1
    ∧ (Command GoLib.ascii "SET".toList
        [Value.str "key".toList, NewAnyInt] State.init).2.fuzzyCommands = []
    ∧ (∀ (L : GoLib) (n : GoString) (a : List Value) (s : State),
        (Command L n a s).2.fuzzyCommands = s.fuzzyCommands)
    ∧ (Command GoLib.ascii "SET".toList [Value.str "key".toList, Value.str "\x7b\x7d".toList]
        (Command GoLib.ascii "SET".toList
          [Value.str "key".toList, NewAnyInt] State.init).2).2.commands
        (generateKey GoLib.ascii "SET".toList [Value.str "key".toList, NewAnyInt])
      ≠ some (Command GoLib.ascii "SET".toList
          [Value.str "key".toList, NewAnyInt] State.init).1 := by
  refine ⟨by decide, by decide, by decide, fun _ _ _ _ => rfl, by decide⟩

/-- C19: `generateKey` is not injective on argument lists.  Argument lists of
different lengths (`"a b"` against `"a", "b"`) and of the same length with
different types (`1`, `"1"` and `true`; nil and `""`) give the same key, and
registering one after the other replaces the first registry entry: the
handle stored at the key is the second one, not the first. -/
theorem generateKey_not_injective (L : GoLib) (s : State) :
    generateKey L "SET".toList [Value.str "a b".toList]
      = generateKey L "SET".toList [Value.str "a".toList, Value.str "b".toList]
    ∧ generateKey L "SET".toList [Value.int 1] = generateKey L "SET".toList [Value.str "1".toList]
    ∧ generateKey L "SET".toList [Value.int 1] = generateKey L "SET".toList [Value.bool true]
    ∧ generateKey L "GET".toList [Value.nil] = generateKey L "GET".toList [Value.str []]
    ∧ (Command L "SET".toList [Value.str "1".toList]
          (Command L "SET".toList [Value.int 1] s).2).2.commands
        (generateKey L "SET".toList [Value.int 1])
        = some (Command L "SET".toList [Value.str "1".toList]
            (Command L "SET".toList [Value.int 1] s).2).1
    ∧ (Command L "SET".toList [Value.str "1".toList]
          (Command L "SET".toList [Value.int 1] s).2).1
        ≠ (Command L "SET".toList [Value.int 1] s).1 := by
  have h1 : decimal 1 = ['1'] := by rw [← FormatInt_eq_decimal]; decide
  have t1 : TrimSpace ['a', ' ', 'b'] = ['a', ' ', 'b'] := by decide
  have t2 : TrimSpace ['a'] = ['a'] := by decide
  have t3 : TrimSpace ['b'] = ['b'] := by decide
  have t4 : TrimSpace ['1'] = ['1'] := by decide
  have t5 : TrimSpace [] = [] := by decide
  have e2 : generateKey L "SET".toList [Value.int 1]
      = generateKey L "SET".toList [Value.str "1".toList] := by
    apply generateKey_congr L _ _ _ _ rfl
    simp [normalizedToken, h1, t4]
  refine ⟨?_, e2, ?_, ?_, ?_, ?_⟩
  · rw [generateKey_eq, generateKey_eq]
    simp [normalizedToken, t1, t2, t3]
  · apply generateKey_congr L _ _ _ _ rfl
    simp [normalizedToken, h1]
  · apply generateKey_congr L _ _ _ _ rfl
    simp [normalizedToken, t5]
  · rw [e2]
    exact Command_commands_self L _ _ _
  · simp [Command]

/-! ## Registry and handles -/

/-- C2: `Command` allocates a fresh expectation (no response, no error), stores
it at `generateKey(commandName, args)` whatever was there before, and returns
the handle of the stored expectation.  After registering the same command and
arguments twice and setting a response on each handle, the registry entry at
the key carries the second response only, also when the first handle is set
after the second registration. -/
theorem Command_overwrite (L : GoLib) (commandName : GoString) (args : List Value) (s : State)
    (r₁ r₂ : Reply) :
    s.heap[(Command L commandName args s).1]? = none
    ∧ (Command L commandName args s).2.commands (generateKey L commandName args)
        = some (Command L commandName args s).1
    ∧ (Command L commandName args s).2.heap[(Command L commandName args s).1]? = some Cmd.zero
    ∧ (Command L commandName args s).2.entry (generateKey L commandName args) = some Cmd.zero
    ∧ (registerTwice L commandName args s r₁ r₂).entry (generateKey L commandName args)
        = some { Response := r₂, Error := none }
    ∧ (registerTwiceThenSet L commandName args s r₁ r₂).entry (generateKey L commandName args)
        = some { Response := r₂, Error := none } := by
  refine ⟨by simp [Command], Command_commands_self L _ _ s, Command_heap_self L _ _ s,
    Command_entry_self L _ _ s, ?_, ?_⟩
  · unfold registerTwice State.Expect
    exact call_entry_self _ _ _ Cmd.zero _ (Command_commands_self L _ _ _)
      (Command_heap_self L _ _ _)
  · unfold registerTwiceThenSet State.Expect State.entry
    rw [call_commands, call_commands, Command_commands_self]
    show (State.call _ (Command L commandName args s).1 _).heap[
      (Command L commandName args (Command L commandName args s).2).1]? = _
    rw [call_heap_other _ _ _ _ (by simp [Command])]
    exact call_heap_self _ _ _ Cmd.zero (Command_heap_self L _ _ _)

/-- C3: `Expect(v)` leaves the response `v` and no error, `ExpectError(e)`
leaves the error `e` and no response, `Expect(v)` followed by `ExpectError(e)`
leaves only `e`, and after any sequence of `Expect`, `ExpectMap` and
`ExpectError` calls, on any handle after at least one call and on a fresh
handle after any number of calls, the handle does not hold a response and an
error together. -/
theorem setters_exclusive (c : Cmd) (v : Reply) (e : Option GoError) (ks : List Call)
    (k : Call) :
    (c.Expect v).Response = v ∧ (c.Expect v).Error = none
    ∧ (c.ExpectError e).Error = e ∧ (c.ExpectError e).Response = .value .nil
    ∧ (c.Expect v).ExpectError e = { Response := .value .nil, Error := e }
    ∧ (Call.run (ks ++ [k]) c).exclusive
    ∧ (Call.run ks Cmd.zero).exclusive := by
  refine ⟨rfl, rfl, rfl, rfl, rfl, ?_, ?_⟩
  · rw [run_snoc]
    exact apply_exclusive k _
  · rcases List.eq_nil_or_concat ks with h | ⟨init, last, h⟩
    · subst h
      left
      rfl
    · subst h
      rw [List.concat_eq_append, run_snoc]
      exact apply_exclusive last _

/-- C9: for a mapping with entries `m`, iterated in any order `range`,
`ExpectMap` leaves no error and a response of `2n` byte-sequence tokens in
which elements `2i` and `2i+1` are the key and the value of the `i`-th entry
visited, every entry of the mapping appearing exactly once; the state is the
one `Expect` leaves when called with that sequence.  For the one-entry mapping
`name ↦ ann` the response is the bytes of `name`, then the bytes of `ann`. -/
theorem ExpectMap_flattens (c : Cmd) (m range : List (GoString × GoString))
    (hrange : range.Perm m) :
    (c.ExpectMap range).Error = none
    ∧ (∃ vs : List Value,
        (c.ExpectMap range).Response = .values vs
        ∧ vs.length = 2 * m.length
        ∧ (∀ i kv, range[i]? = some kv →
            vs[2 * i]? = some (.bytes kv.1) ∧ vs[2 * i + 1]? = some (.bytes kv.2))
        ∧ (pairs vs).Perm (m.map fun kv => (Value.bytes kv.1, Value.bytes kv.2))
        ∧ c.ExpectMap range = c.Expect (.values vs))
    ∧ (m = [("name".toList, "ann".toList)] →
        c.ExpectMap range
          = { Response := .values [.bytes "name".toList, .bytes "ann".toList],
              Error := none }) := by
  refine ⟨rfl, ⟨range.flatMap fun kv => [Value.bytes kv.1, Value.bytes kv.2], ?_, ?_, ?_, ?_, ?_⟩,
    ?_⟩
  · show Reply.values (ExpectMap.loop range) = _
    rw [loop_eq_flatMap]
  · rw [flatMap_pair_length, hrange.length_eq]
  · exact flatMap_pair_get range
  · rw [pairs_flatMap]
    exact hrange.map _
  · show ({ c with Response := .values (ExpectMap.loop range), Error := none } : Cmd) = _
    rw [loop_eq_flatMap]
    rfl
  · intro hm
    subst hm
    rw [List.perm_singleton.mp hrange]
    rfl

theorem ExpectMap_flattens_witness :
    (Cmd.zero.ExpectMap [("b".toList, "2".toList), ("a".toList, "1".toList)]).Error = none :=
  (ExpectMap_flattens Cmd.zero [("a".toList, "1".toList), ("b".toList, "2".toList)]
    [("b".toList, "2".toList), ("a".toList, "1".toList)] (List.Perm.swap _ _ _)).1

/-- C14: after a non-empty sequence of `Expect`, `ExpectMap` and `ExpectError`
calls on a handle in any state, the response and error of the handle are
those left by the last call of the sequence alone on a fresh handle; the
result of a setter does not depend on the state before it. -/
theorem last_write_wins (c : Cmd) (ks : List Call) (h : ks ≠ []) :
    Call.run ks c = (ks.getLast h).apply Cmd.zero
    ∧ ∀ (k : Call) (c₁ c₂ : Cmd), k.apply c₁ = k.apply c₂ := by
  refine ⟨?_, apply_const⟩
  have e : Call.run ks c = Call.run (ks.dropLast ++ [ks.getLast h]) c := by
    rw [List.dropLast_append_getLast h]
  rw [e, run_snoc]
  exact apply_const _ _ _

theorem last_write_wins_witness :
    Call.run [Call.expect (.value (.int 1)), Call.expectError (some "boom".toList),
        Call.expect (.value (.str "ok".toList))] { Response := .value (.int 7), Error := none }
      = { Response := .value (.str "ok".toList), Error := none } :=
  (last_write_wins { Response := .value (.int 7), Error := none }
    [Call.expect (.value (.int 1)), Call.expectError (some "boom".toList),
      Call.expect (.value (.str "ok".toList))] (by simp)).1

/-- C20: in a state whose registry pointers are allocated, `Command` and
`GenericCommand` leave the pointer and the expectation at every key other
than the generated key as they were, leave every cell allocated before as it
was, and add no key but the generated one; `Expect`, `ExpectMap` and
`ExpectError` leave the registry (its keys and pointers) as it was and change
no cell other than the one of the handle. -/
theorem registration_frame (L : GoLib) (commandName : GoString) (args : List Value)
    (s : State) (hwf : s.wf) :
    (∀ key, key ≠ generateKey L commandName args →
        (Command L commandName args s).2.commands key = s.commands key
        ∧ (Command L commandName args s).2.entry key = s.entry key)
    ∧ (∀ p, p < s.heap.length → (Command L commandName args s).2.heap[p]? = s.heap[p]?)
    ∧ (∀ key, (Command L commandName args s).2.hasKey key →
        s.hasKey key ∨ key = generateKey L commandName args)
    ∧ (∀ key, key ≠ generateKey L commandName [] →
        (GenericCommand L commandName s).2.commands key = s.commands key
        ∧ (GenericCommand L commandName s).2.entry key = s.entry key)
    ∧ (∀ p, p < s.heap.length → (GenericCommand L commandName s).2.heap[p]? = s.heap[p]?)
    ∧ (∀ key, (GenericCommand L commandName s).2.hasKey key →
        s.hasKey key ∨ key = generateKey L commandName [])
    ∧ (∀ (c : Nat) (k : Call),
        (s.call c k.apply).commands = s.commands
        ∧ (s.call c k.apply).heap.length = s.heap.length
        ∧ (∀ p, p ≠ c → (s.call c k.apply).heap[p]? = s.heap[p]?)
        ∧ (∀ key, s.commands key ≠ some c → (s.call c k.apply).entry key = s.entry key))
    ∧ (∀ c r, s.Expect c r = s.call c (Call.expect r).apply)
    ∧ (∀ c m, s.ExpectMap c m = s.call c (Call.expectMap m).apply)
    ∧ (∀ c e, s.ExpectError c e = s.call c (Call.expectError e).apply) := by
  have hadd : ∀ (a : List Value) (key : GoString), (Command L commandName a s).2.hasKey key →
      s.hasKey key ∨ key = generateKey L commandName a := by
    intro a key hk
    by_cases e : key = generateKey L commandName a
    · exact Or.inr e
    · left
      unfold State.hasKey at hk ⊢
      rwa [Command_commands_other L commandName a s key e] at hk
  refine ⟨fun key hk => ⟨Command_commands_other L _ _ s key hk,
      Command_entry_other L _ _ s hwf key hk⟩,
    fun p hp => Command_heap_old L _ _ s p hp, hadd args,
    fun key hk => ⟨Command_commands_other L _ [] s key hk,
      Command_entry_other L _ [] s hwf key hk⟩,
    fun p hp => Command_heap_old L _ [] s p hp, hadd [], ?_, fun _ _ => rfl, fun _ _ => rfl,
    fun _ _ => rfl⟩
  intro c k
  refine ⟨call_commands s c _, call_heap_length s c _, fun p hp => call_heap_other s c _ p hp, ?_⟩
  intro key hk
  unfold State.entry
  rw [call_commands]
  cases hp : s.commands key with
  | none => rfl
  | some p =>
    have hne : p ≠ c := by
      intro e
      rw [hp, e] at hk
      exact hk rfl
    exact call_heap_other s c _ p hne

theorem registration_frame_witness :
    (Command GoLib.ascii "GET".toList [Value.str "x".toList]
        (Command GoLib.ascii "SET".toList [Value.str "y".toList] State.init).2).2.entry
        "SET y".toList
      = (Command GoLib.ascii "SET".toList [Value.str "y".toList] State.init).2.entry
        "SET y".toList :=
  ((registration_frame GoLib.ascii "GET".toList [Value.str "x".toList]
    (Command GoLib.ascii "SET".toList [Value.str "y".toList] State.init).2
    (wf_Command _ _ _ _ wf_init)).1 "SET y".toList (by decide)).2

/-! ## Fuzzy matchers -/

/-- C7, at the failing input: the matcher of `NewAnyInt` rejects a value of
type `uint`, which is an integer type; `uint` is not listed in the type switch
of `anyInt.Match`. -/
theorem anyInt_rejects_uint :
    Value.Match NewAnyInt (.uint 5) = some false ∧ (Value.uint 5).isInteger = true := by
  constructor <;> rfl

/-- C8: the matcher of `NewAnyInt` accepts the integer 42, rejects the string
`abc`, and returns false for every value whose dynamic type is not an integer
type. -/
theorem anyInt_rejects_non_integers :
    Value.Match NewAnyInt (.int 42) = some true
    ∧ Value.Match NewAnyInt (.str "abc".toList) = some false
    ∧ ∀ v : Value, v.isInteger = false → Value.Match NewAnyInt v = some false := by
  refine ⟨rfl, rfl, ?_⟩
  intro v hv
  cases v <;> first | rfl | cases hv

/-- C15: the matcher of `NewAnyDouble` returns true exactly for the values of
dynamic type `float32` or `float64`; it returns false for integers, strings,
byte sequences, bools and nil. -/
theorem anyDouble_matches_floats :
    (∀ v : Value, Value.Match NewAnyDouble v = some v.isFloat)
    ∧ (∀ v : Value, Value.Match NewAnyDouble v = some true ↔ v.isFloat = true)
    ∧ (∀ x, Value.Match NewAnyDouble (.float32 x) = some true)
    ∧ (∀ x, Value.Match NewAnyDouble (.float64 x) = some true)
    ∧ (∀ v : Value, v.isInteger = true → Value.Match NewAnyDouble v = some false)
    ∧ (∀ t, Value.Match NewAnyDouble (.str t) = some false)
    ∧ (∀ b, Value.Match NewAnyDouble (.bytes b) = some false)
    ∧ (∀ b, Value.Match NewAnyDouble (.bool b) = some false)
    ∧ Value.Match NewAnyDouble .nil = some false := by
  have h : ∀ v : Value, Value.Match NewAnyDouble v = some v.isFloat := by
    intro v
    cases v <;> rfl
  refine ⟨h, ?_, fun _ => rfl, fun _ => rfl, ?_, fun _ => rfl, fun _ => rfl, fun _ => rfl, rfl⟩
  · intro v
    rw [h v]
    simp
  · intro v hv
    cases v <;> first | rfl | cases hv

/-- C16: the matcher of `NewAnyData` returns true for every argument, nil
included. -/
theorem anyData_matches_all :
    (∀ v : Value, Value.Match NewAnyData v = some true)
    ∧ Value.Match NewAnyData .nil = some true :=
  ⟨fun _ => rfl, rfl⟩

/-- C17, at the failing input: for a nil argument `reflect.TypeOf` returns the
nil `Type` and the call of `Implements` on it panics, so `implementsFuzzy`
returns no boolean; for every other argument it returns one. -/
theorem implementsFuzzy_nil_panics :
    implementsFuzzy .nil = none
    ∧ ∀ v : Value, v ≠ .nil → ∃ b, implementsFuzzy v = some b := by
  refine ⟨rfl, ?_⟩
  intro v hv
  cases v <;> first | exact absurd rfl hv | exact ⟨_, rfl⟩

/-- C18: `implementsFuzzy` returns true for the values of `NewAnyInt`,
`NewAnyDouble` and `NewAnyData`, and false for every string, byte sequence,
`int`, `int64`, `float64` and bool. -/
theorem implementsFuzzy_separates :
    implementsFuzzy NewAnyInt = some true
    ∧ implementsFuzzy NewAnyDouble = some true
    ∧ implementsFuzzy NewAnyData = some true
    ∧ (∀ t, implementsFuzzy (.str t) = some false)
    ∧ (∀ b, implementsFuzzy (.bytes b) = some false)
    ∧ (∀ n, implementsFuzzy (.int n) = some false)
    ∧ (∀ n, implementsFuzzy (.int64 n) = some false)
    ∧ (∀ x, implementsFuzzy (.float64 x) = some false)
    ∧ (∀ b, implementsFuzzy (.bool b) = some false) :=
  ⟨rfl, rfl, rfl, fun _ => rfl, fun _ => rfl, fun _ => rfl, fun _ => rfl, fun _ => rfl,
    fun _ => rfl⟩

end Redigomock
